import Mathlib

/-!
Verification of the flow-query handler (`pkg/handler/flows.go`) of the
network-observability console plugin.

Go strings are modelled as `List Char` (one `Char` per byte/rune; all inputs
of interest are ASCII).  Machine integers (`int64`, `int`) are modelled as
`Int` with explicit two's-complement wrapping (`wrap64`) where Go arithmetic
can overflow.  Fallible Go functions returning `(T, error)` are modelled as
`Except (List Char) T`, the error being its message string.

The Loki client, the query builder's filter validation, `fetchSingle`,
`fetchParallel` and the stream merger live outside the provided excerpt;
the first two are abstracted as parameters (`Checker`, `Fetcher`) and the
last three are modelled from the spec (see their doc comments).
-/

deriving instance DecidableEq for Except

/-- A Go string, modelled as its list of characters. -/
abbrev Str := List Char

/-- Turn a Lean string literal into the `Str` model. -/
def str (s : String) : Str := s.data

/-- Go `strings.Split(s, sep)` for a one-character separator: splits `s` at
every occurrence of `sep`; the separators are consumed; splitting the empty
string yields one empty part (Go returns `[""]`). -/
def splitOnChar (sep : Char) : Str → List Str
  | [] => [[]]
  | c :: rest =>
    let r := splitOnChar sep rest
    if c = sep then
      [] :: r
    else
      match r with
      | [] => [[c]]
      | g :: gs => (c :: g) :: gs

/-- Inverse of `splitOnChar`: rejoin parts with the separator between them. -/
def joinSep (sep : Char) : List Str → Str
  | [] => []
  | [g] => g
  | g :: h :: t => g ++ sep :: joinSep sep (h :: t)

/-- Hexadecimal digit test, as in Go's `ishex`. -/
def isHexDigit (c : Char) : Bool :=
  ('0' ≤ c && c ≤ '9') || ('a' ≤ c && c ≤ 'f') || ('A' ≤ c && c ≤ 'F')

/-- Value of a hexadecimal digit, as in Go's `unhex`. -/
def hexVal (c : Char) : Nat :=
  if '0' ≤ c && c ≤ '9' then c.toNat - '0'.toNat
  else if 'a' ≤ c && c ≤ 'f' then c.toNat - 'a'.toNat + 10
  else c.toNat - 'A'.toNat + 10

/-- Go `url.QueryUnescape`: `%XY` (hex) decodes to the corresponding byte,
`+` decodes to a space, any other character is kept; a `%` not followed by
two hex digits is an error (`none`). -/
def queryUnescape : Str → Option Str
  | [] => some []
  | c :: rest =>
    if c = '%' then
      match rest with
      | a :: b :: rest2 =>
        if isHexDigit a && isHexDigit b then
          (queryUnescape rest2).map (fun d => Char.ofNat (hexVal a * 16 + hexVal b) :: d)
        else none
      | _ => none
    else
      (queryUnescape rest).map (fun d => (if c = '+' then ' ' else c) :: d)

/-- The effect of `queryUnescape` on a string with no `%`: only `+` becomes a space. -/
def plusToSpace (l : Str) : Str := l.map (fun c => if c = '+' then ' ' else c)

/-- A kept filter pair: the `len(pair) == 2` slice produced by
`strings.Split(filter, "=")`, as a (key, value) pair. -/
abbrev KV := Str × Str

/-- One candidate of a filter group: kept iff `strings.Split(filter, "=")`
yields exactly two parts (the source checks only `len(pair) == 2`). -/
def keepPair (f : Str) : Option KV :=
  match splitOnChar '=' f with
  | [k, v] => some (k, v)
  | _ => none

/-- `parseFilters` from `flows.go`: URL-unescape the raw string (failing on a
bad escape), split on `|` into groups, split each group on `&` into
candidates, keep the candidates that split on `=` into exactly two parts. -/
def parseFilters (raw : Str) : Except Str (List (List KV)) :=
  match queryUnescape raw with
  | none => Except.error (str "invalid URL escape")
  | some decoded =>
    Except.ok ((splitOnChar '|' decoded).map
      (fun group => (splitOnChar '&' group).filterMap keepPair))

/-- Error message of Go `strconv.ParseInt` on a syntactically invalid input. -/
def parseIntErrSyntax (s : Str) : Str :=
  str "strconv.ParseInt: parsing \"" ++ s ++ str "\": invalid syntax"

/-- Error message of Go `strconv.ParseInt` on an out-of-range input. -/
def parseIntErrRange (s : Str) : Str :=
  str "strconv.ParseInt: parsing \"" ++ s ++ str "\": value out of range"

/-- Decimal-digit run to its value: `some n` iff nonempty and all digits. -/
def digitsVal (ds : Str) : Option Nat :=
  if ds.isEmpty then none
  else if ds.all Char.isDigit then
    some (ds.foldl (fun acc c => acc * 10 + (c.toNat - 48)) 0)
  else none

/-- Go `strconv.ParseInt(s, 10, 64)`: optional sign then decimal digits;
errors on empty/garbage input and on values outside the `int64` range. -/
def parseInt64 (s : Str) : Except Str Int :=
  let core := fun (neg : Bool) (ds : Str) =>
    match digitsVal ds with
    | none => Except.error (parseIntErrSyntax s)
    | some n =>
      let v : Int := if neg then -(n : Int) else (n : Int)
      if v < -(2 ^ 63) ∨ 2 ^ 63 - 1 < v then Except.error (parseIntErrRange s)
      else Except.ok v
  match s with
  | '+' :: ds => core false ds
  | '-' :: ds => core true ds
  | ds => core false ds

/-- Digits of `n` in base 10, accumulator form; `fuel` bounds the recursion
and any `fuel > 0` at least the number of digits suffices. -/
def toDecimalAux : Nat → Nat → Str → Str
  | 0, _, acc => acc
  | fuel + 1, n, acc =>
    let d := Char.ofNat (48 + n % 10)
    if n < 10 then d :: acc else toDecimalAux fuel (n / 10) (d :: acc)

/-- Decimal digits of a natural number; 20 units of fuel cover the at most
19 digits of any `int64` magnitude, the only inputs Go's `FormatInt(v, 10)`
receives here. -/
def toDecimal (n : Nat) : Str := toDecimalAux 20 n []

/-- Go `strconv.FormatInt(v, 10)`. -/
def formatInt (v : Int) : Str :=
  if v < 0 then '-' :: toDecimal v.natAbs else toDecimal v.toNat

/-- Two's-complement wrap of an integer into the `int64` range, the effect
of Go `int64` arithmetic on an overflowing result. -/
def wrap64 (v : Int) : Int := (v + 2 ^ 63) % 2 ^ 64 - 2 ^ 63

/-- `url.Values` restricted to `Get`: returns the value of a parameter, the
empty string when absent (Go's `Values.Get` behaviour). -/
abbrev Params := Str → Str

def startTimeKey : Str := str "startTime"

def endTimeKey : Str := str "endTime"

def timeRangeKey : Str := str "timeRange"

def limitKey : Str := str "limit"

def reporterKey : Str := str "reporter"

def filtersKey : Str := str "filters"

/-- `getStartTime` from `flows.go`: an explicit `startTime` is returned as
given; otherwise a present `timeRange` is parsed as an `int64` number of
seconds `r` (parse failure is an error) and `time.Now().Unix() - r` is
formatted; otherwise the empty string.  `now` stands for
`time.Now().Unix()`; the subtraction is `int64` arithmetic, hence `wrap64`. -/
def getStartTime (now : Int) (p : Params) : Except Str Str :=
  let start := p startTimeKey
  if start.length = 0 then
    let tr := p timeRangeKey
    if 0 < tr.length then
      match parseInt64 tr with
      | Except.error e => Except.error (str "Could not parse time range: " ++ e)
      | Except.ok r => Except.ok (formatInt (wrap64 (now - r)))
    else Except.ok start
  else Except.ok start

/-- `getLimit` from `flows.go`: returns the limit both as the raw string and
as an integer; absent limit yields `("", 0)`; a present limit that does not
parse as `int64` is an error. -/
def getLimit (p : Params) : Except Str (Str × Int) :=
  let limit := p limitKey
  if 0 < limit.length then
    match parseInt64 limit with
    | Except.error e => Except.error (str "Could not parse limit: " ++ e)
    | Except.ok l => Except.ok (limit, l)
  else Except.ok (limit, 0)

/-- A flow record, the unit of data accumulated by the merger; its internal
structure is irrelevant to the handler, so it is abstracted as a number. -/
abbrev Record := Nat

/-- The error carried by a failed fetch: the HTTP status code reported for
the failure together with the error message. -/
abbrev Err := Nat × Str

/-- The query built by `loki.NewFlowQueryBuilder(&cfg, start, end, limit,
reporter)` followed by `Filters(group)` and `Build()`: its observable content
is the base parameters plus the one AND-group of filters applied to it.  The
builder's own validation is abstracted as a `Checker` (below). -/
structure FlowQuery where
  qStart : Str
  qEnd : Str
  qLimit : Str
  qReporter : Str
  qFilters : List KV
  deriving DecidableEq

/-- The query builder's filter validation, `qb.Filters(group)`: accepts the
group or rejects it with an error message.  Not part of the excerpt, so kept
abstract as a parameter of the handler. -/
abbrev Checker := List KV → Except Str Unit

/-- The outbound call to the log backend for one built query: a batch of
records, or an error with its status code.  Abstract parameter standing for
the `httpclient.Caller` plus Loki response decoding. -/
abbrev Fetcher := FlowQuery → Except Err (List Record)

/-- Modelled from the spec: `loki.StreamMerger` (its source is not in the
excerpt) is constructed with a maximum record count (0 meaning unbounded),
accumulates records fed to it batch by batch, and once the cap is reached
excess records from subsequent batches are not added. -/
structure StreamMerger where
  limit : Int
  records : List Record
  deriving DecidableEq

/-- `loki.NewStreamMerger(reqLimit)`: empty accumulator with the given cap. -/
def NewStreamMerger (limit : Int) : StreamMerger := ⟨limit, []⟩

/-- Modelled from the spec: add one record unless the cap is already reached. -/
def StreamMerger.addRecord (m : StreamMerger) (r : Record) : StreamMerger :=
  if 0 < m.limit ∧ m.limit ≤ (m.records.length : Int) then m
  else ⟨m.limit, m.records ++ [r]⟩

/-- Modelled from the spec: feed one raw result batch into the merger. -/
def StreamMerger.addBatch (m : StreamMerger) (batch : List Record) : StreamMerger :=
  batch.foldl StreamMerger.addRecord m

/-- `merger.Get()`: the aggregated response, i.e. the accumulated records. -/
def StreamMerger.get (m : StreamMerger) : List Record := m.records

/-- Modelled from the spec: `fetchSingle` executes one query via the caller
and feeds the raw result into the merger; a failure is returned with the
backend-reported status code. -/
def fetchSingle (fetch : Fetcher) (q : FlowQuery) (m : StreamMerger) :
    Except Err StreamMerger :=
  match fetch q with
  | Except.error e => Except.error e
  | Except.ok batch => Except.ok (m.addBatch batch)

/-- Modelled from the spec: `fetchParallel` dispatches all queries and feeds
each result into the merger in arrival order; the first error wins and aborts
the aggregate.  Concurrency is modelled by taking the list order as the
arrival order. -/
def fetchParallel (fetch : Fetcher) (qs : List FlowQuery) (m : StreamMerger) :
    Except Err StreamMerger :=
  match qs with
  | [] => Except.ok m
  | q :: rest =>
    match fetch q with
    | Except.error e => Except.error e
    | Except.ok batch => fetchParallel fetch rest (m.addBatch batch)

/-- The query-building loop of the multi-group branch of `getFlows`
(lines 128-136): one query per group, in group order, returning the first
builder rejection (wrapped by the caller) if any. -/
def buildQueries (check : Checker) (start endv limS reporter : Str) :
    List (List KV) → Except Str (List FlowQuery)
  | [] => Except.ok []
  | g :: gs =>
    match check g with
    | Except.error e => Except.error e
    | Except.ok _ =>
      match buildQueries check start endv limS reporter gs with
      | Except.error e => Except.error e
      | Except.ok qs => Except.ok (⟨start, endv, limS, reporter, g⟩ :: qs)

/-- The common post-fetch step of both branches of `getFlows`: a fetch error
becomes `(nil, code, "Error while fetching flows from Loki: " + detail)`, a
success becomes `(merger.Get(), 200, nil)`. -/
def wrapFetch : Except Err StreamMerger → Option (List Record) × Nat × Option Str
  | Except.error (code, msg) =>
    (none, code, some (str "Error while fetching flows from Loki: " ++ msg))
  | Except.ok m => (some m.get, 200, none)

/-- The fan-out part of `getFlows` (lines 126-157), after all parameters have
been extracted: more than one filter group builds one query per group and
dispatches them via `fetchParallel` (a builder rejection giving 400 with the
`"Can't build query: "` prefix); otherwise one query is built, with the lone
group's filters when present (a rejection giving 400 with the error
unchanged), and dispatched via `fetchSingle`. -/
def dispatch (check : Checker) (fetch : Fetcher) (start endv limS : Str)
    (limI : Int) (reporter : Str) (fg : List (List KV)) :
    Option (List Record) × Nat × Option Str :=
  let merger := NewStreamMerger limI
  if 1 < fg.length then
    match buildQueries check start endv limS reporter fg with
    | Except.error e => (none, 400, some (str "Can't build query: " ++ e))
    | Except.ok queries => wrapFetch (fetchParallel fetch queries merger)
  else
    match (if 0 < fg.length then check (fg.headD []) else Except.ok ()) with
    | Except.error e => (none, 400, some e)
    | Except.ok _ =>
      wrapFetch (fetchSingle fetch ⟨start, endv, limS, reporter, fg.headD []⟩ merger)

/-- `getFlows` from `flows.go`: extract start time, end time, limit, reporter
and filters from the query parameters (any extraction failure giving 400),
then dispatch the fetches and aggregate.  `check` and `fetch` abstract the
query builder's validation and the Loki client; `now` stands for
`time.Now().Unix()`. -/
def getFlows (check : Checker) (fetch : Fetcher) (now : Int) (p : Params) :
    Option (List Record) × Nat × Option Str :=
  match getStartTime now p with
  | Except.error e => (none, 400, some e)
  | Except.ok start =>
    match getLimit p with
    | Except.error e => (none, 400, some e)
    | Except.ok (limS, limI) =>
      match parseFilters (p filtersKey) with
      | Except.error e => (none, 400, some e)
      | Except.ok fg => dispatch check fetch start (p endTimeKey) limS limI (p reporterKey) fg

/-- A query-builder validation accepting every filter group. -/
def checkOk : Checker := fun _ => Except.ok ()

/-- A query-builder validation rejecting every filter group. -/
def checkBad : Checker := fun _ => Except.error (str "bad key")

/-- A backend returning one record for every query. -/
def fetchOk : Fetcher := fun _ => Except.ok [7]

/-- A backend failing every query with status 502. -/
def fetchFail : Fetcher := fun _ => Except.error (502, str "boom")

/-- Request parameters with two OR-groups of filters and nothing else. -/
def pMulti : Params := fun k => if k = filtersKey then str "a=1|b=2" else []

/-- Request parameters with one filter group and nothing else. -/
def pSingle : Params := fun k => if k = filtersKey then str "a=1" else []

/-- Request parameters with no parameter set at all. -/
def pNone : Params := fun _ => []

/-- Request parameters with only an absolute start time. -/
def pStartOnly : Params := fun k => if k = startTimeKey then str "42" else []

/-- Request parameters with only a relative time range. -/
def pRange : Params := fun k => if k = timeRangeKey then str "60" else []

/-- Request parameters with a start time and a non-numeric time range. -/
def pMask : Params := fun k =>
  if k = startTimeKey then str "5" else if k = timeRangeKey then str "x" else []

/-- Request parameters whose time range is the most negative `int64`. -/
def pOverflow : Params := fun k =>
  if k = timeRangeKey then str "-9223372036854775808" else []

/-- Request parameters with only a non-numeric time range. -/
def pBadRange : Params := fun k => if k = timeRangeKey then str "abc" else []

/-- Request parameters with only a non-numeric limit. -/
def pBadLimit : Params := fun k => if k = limitKey then str "zz" else []

theorem splitOnChar_ne_nil (sep : Char) (l : Str) : splitOnChar sep l ≠ [] := by
  cases l with
  | nil => simp [splitOnChar]
  | cons c rest =>
    by_cases hc : c = sep
    · simp [splitOnChar, hc]
    · cases h : splitOnChar sep rest <;> simp [splitOnChar, hc, h]

theorem joinSep_cons (sep : Char) (g : Str) (r : List Str) (hr : r ≠ []) :
    joinSep sep (g :: r) = g ++ sep :: joinSep sep r := by
  cases r with
  | nil => exact absurd rfl hr
  | cons h t => rfl

theorem joinSep_splitOnChar (sep : Char) (l : Str) :
    joinSep sep (splitOnChar sep l) = l := by
  induction l with
  | nil => rfl
  | cons c rest ih =>
    by_cases hc : c = sep
    · rw [show splitOnChar sep (c :: rest) = [] :: splitOnChar sep rest by
        simp [splitOnChar, hc]]
      rw [joinSep_cons sep [] _ (splitOnChar_ne_nil sep rest), ih, hc]
      rfl
    · obtain ⟨g, gs, hgs⟩ : ∃ g gs, splitOnChar sep rest = g :: gs := by
        cases h : splitOnChar sep rest with
        | nil => exact absurd h (splitOnChar_ne_nil sep rest)
        | cons g gs => exact ⟨g, gs, rfl⟩
      rw [show splitOnChar sep (c :: rest) = (c :: g) :: gs by
        simp [splitOnChar, hc, hgs]]
      cases gs with
      | nil =>
        have : joinSep sep [g] = rest := by rw [← hgs, ih]
        simp [joinSep] at this
        simp [joinSep, this]
      | cons h t =>
        rw [joinSep_cons sep (c :: g) (h :: t) (by simp),
          show (c :: g) ++ sep :: joinSep sep (h :: t) =
            c :: (g ++ sep :: joinSep sep (h :: t)) by simp,
          ← joinSep_cons sep g (h :: t) (by simp), ← hgs, ih]

theorem splitOnChar_parts_no_sep (sep : Char) (l : Str) :
    ∀ part ∈ splitOnChar sep l, sep ∉ part := by
  induction l with
  | nil => intro part hp; simp [splitOnChar] at hp; simp [hp]
  | cons c rest ih =>
    intro part hp
    by_cases hc : c = sep
    · rw [show splitOnChar sep (c :: rest) = [] :: splitOnChar sep rest by
        simp [splitOnChar, hc]] at hp
      rcases List.mem_cons.mp hp with rfl | hp'
      · simp
      · exact ih part hp'
    · obtain ⟨g, gs, hgs⟩ : ∃ g gs, splitOnChar sep rest = g :: gs := by
        cases h : splitOnChar sep rest with
        | nil => exact absurd h (splitOnChar_ne_nil sep rest)
        | cons g gs => exact ⟨g, gs, rfl⟩
      rw [show splitOnChar sep (c :: rest) = (c :: g) :: gs by
        simp [splitOnChar, hc, hgs]] at hp
      rcases List.mem_cons.mp hp with rfl | hp'
      · intro hmem
        rcases List.mem_cons.mp hmem with he | hmem'
        · exact hc he.symm
        · exact ih g (by rw [hgs]; exact List.mem_cons_self g gs) hmem'
      · exact ih part (by rw [hgs]; exact List.mem_cons_of_mem g hp')

theorem splitOnChar_no_sep (sep : Char) (l : Str) (h : sep ∉ l) :
    splitOnChar sep l = [l] := by
  induction l with
  | nil => rfl
  | cons c rest ih =>
    have hc : c ≠ sep := fun he => h (he ▸ List.mem_cons_self c rest)
    have h' : sep ∉ rest := fun hm => h (List.mem_cons_of_mem c hm)
    simp [splitOnChar, hc, ih h']

theorem splitOnChar_append (sep : Char) (k rest : Str) (hk : sep ∉ k) :
    splitOnChar sep (k ++ sep :: rest) = k :: splitOnChar sep rest := by
  induction k with
  | nil => simp [splitOnChar]
  | cons c k ih =>
    have hc : c ≠ sep := fun he => hk (he ▸ List.mem_cons_self c k)
    have hk' : sep ∉ k := fun hm => hk (List.mem_cons_of_mem c hm)
    simp [splitOnChar, hc, ih hk']

theorem keepPair_eq_some_iff (f k v : Str) :
    keepPair f = some (k, v) ↔ f = k ++ '=' :: v ∧ '=' ∉ k ∧ '=' ∉ v := by
  constructor
  · intro h
    match hs : splitOnChar '=' f with
    | [] => simp [keepPair, hs] at h
    | [_] => simp [keepPair, hs] at h
    | _ :: _ :: _ :: _ => simp [keepPair, hs] at h
    | [k', v'] =>
      simp [keepPair, hs] at h
      obtain ⟨rfl, rfl⟩ := h
      refine ⟨?_, ?_, ?_⟩
      · have hj := joinSep_splitOnChar '=' f
        rw [hs] at hj
        simpa [joinSep] using hj.symm
      · exact splitOnChar_parts_no_sep '=' f k' (by rw [hs]; simp)
      · exact splitOnChar_parts_no_sep '=' f v' (by rw [hs]; simp)
  · rintro ⟨rfl, hk, hv⟩
    simp [keepPair, splitOnChar_append '=' k v hk, splitOnChar_no_sep '=' v hv]

theorem plusToSpace_no_pct (l : Str) (h : '%' ∉ l) : '%' ∉ plusToSpace l := by
  intro hm
  rcases List.mem_map.mp hm with ⟨c, hc, he⟩
  by_cases hp : c = '+'
  · simp [hp] at he
  · simp [hp] at he
    exact h (he ▸ hc)

theorem plusToSpace_no_plus (l : Str) : '+' ∉ plusToSpace l := by
  intro hm
  rcases List.mem_map.mp hm with ⟨c, hc, he⟩
  by_cases hp : c = '+'
  · simp [hp] at he
  · simp [hp] at he

theorem plusToSpace_idem (l : Str) : plusToSpace (plusToSpace l) = plusToSpace l := by
  induction l with
  | nil => rfl
  | cons c rest ih =>
    by_cases hc : c = '+' <;> simp [plusToSpace, hc] at ih ⊢ <;> exact ih

theorem plusToSpace_id (l : Str) (h : '+' ∉ l) : plusToSpace l = l := by
  induction l with
  | nil => rfl
  | cons c rest ih =>
    have hc : c ≠ '+' := fun he => h (he ▸ List.mem_cons_self c rest)
    have h' : '+' ∉ rest := fun hm => h (List.mem_cons_of_mem c hm)
    simp [plusToSpace, hc] at ih ⊢
    exact ih h'

theorem queryUnescape_cons_ne (c : Char) (rest : Str) (hc : c ≠ '%') :
    queryUnescape (c :: rest) =
      (queryUnescape rest).map (fun d => (if c = '+' then ' ' else c) :: d) := by
  cases rest with
  | nil => simp [queryUnescape, hc]
  | cons a rest' =>
    cases rest' with
    | nil => simp [queryUnescape, hc]
    | cons b rest2 => simp [queryUnescape, hc]

theorem queryUnescape_no_pct (l : Str) (h : '%' ∉ l) :
    queryUnescape l = some (plusToSpace l) := by
  induction l with
  | nil => rfl
  | cons c rest ih =>
    have hc : c ≠ '%' := fun he => h (he ▸ List.mem_cons_self c rest)
    have h' : '%' ∉ rest := fun hm => h (List.mem_cons_of_mem c hm)
    rw [queryUnescape_cons_ne c rest hc, ih h']
    simp [plusToSpace]

theorem getFlows_eq_dispatch (check : Checker) (fetch : Fetcher) (now : Int)
    (p : Params) (start limS : Str) (limI : Int) (fg : List (List KV))
    (hs : getStartTime now p = Except.ok start)
    (hl : getLimit p = Except.ok (limS, limI))
    (hf : parseFilters (p filtersKey) = Except.ok fg) :
    getFlows check fetch now p =
      dispatch check fetch start (p endTimeKey) limS limI (p reporterKey) fg := by
  simp [getFlows, hs, hl, hf]

theorem dispatch_multi_ok (check : Checker) (fetch : Fetcher)
    (start endv limS : Str) (limI : Int) (reporter : Str) (fg : List (List KV))
    (qs : List FlowQuery) (h : 1 < fg.length)
    (hq : buildQueries check start endv limS reporter fg = Except.ok qs) :
    dispatch check fetch start endv limS limI reporter fg =
      wrapFetch (fetchParallel fetch qs (NewStreamMerger limI)) := by
  simp [dispatch, h, hq]

theorem dispatch_multi_err (check : Checker) (fetch : Fetcher)
    (start endv limS : Str) (limI : Int) (reporter : Str) (fg : List (List KV))
    (e : Str) (h : 1 < fg.length)
    (he : buildQueries check start endv limS reporter fg = Except.error e) :
    dispatch check fetch start endv limS limI reporter fg =
      (none, 400, some (str "Can't build query: " ++ e)) := by
  simp [dispatch, h, he]

theorem dispatch_single_ok (check : Checker) (fetch : Fetcher)
    (start endv limS : Str) (limI : Int) (reporter : Str) (fg : List (List KV))
    (h : ¬1 < fg.length) (hc : 0 < fg.length → check (fg.headD []) = Except.ok ()) :
    dispatch check fetch start endv limS limI reporter fg =
      wrapFetch (fetchSingle fetch ⟨start, endv, limS, reporter, fg.headD []⟩
        (NewStreamMerger limI)) := by
  by_cases h0 : 0 < fg.length
  · have hc' := hc h0
    rw [List.headD_eq_head?] at hc'
    simp [dispatch, h, h0, hc']
  · simp [dispatch, h, h0]

theorem dispatch_single_err (check : Checker) (fetch : Fetcher)
    (start endv limS : Str) (limI : Int) (reporter : Str) (fg : List (List KV))
    (e : Str) (h0 : 0 < fg.length) (h : ¬1 < fg.length)
    (he : check (fg.headD []) = Except.error e) :
    dispatch check fetch start endv limS limI reporter fg = (none, 400, some e) := by
  rw [List.headD_eq_head?] at he
  simp [dispatch, h, h0, he]

theorem buildQueries_ok_shape (check : Checker) (start endv limS reporter : Str) :
    ∀ fg qs, buildQueries check start endv limS reporter fg = Except.ok qs →
      qs.length = fg.length ∧ qs.map FlowQuery.qFilters = fg := by
  intro fg
  induction fg with
  | nil =>
    intro qs h
    simp [buildQueries] at h
    simp [← h]
  | cons g gs ih =>
    intro qs h
    simp only [buildQueries] at h
    cases hc : check g with
    | error e => rw [hc] at h; simp at h
    | ok u =>
      rw [hc] at h
      cases hb : buildQueries check start endv limS reporter gs with
      | error e => rw [hb] at h; simp at h
      | ok qs' =>
        rw [hb] at h
        simp at h
        obtain ⟨h1, h2⟩ := ih qs' hb
        simp [← h, h1, h2]

theorem buildQueries_err_mem (check : Checker) (start endv limS reporter : Str) :
    ∀ fg e, buildQueries check start endv limS reporter fg = Except.error e →
      ∃ g, g ∈ fg ∧ check g = Except.error e := by
  intro fg
  induction fg with
  | nil => intro e h; simp [buildQueries] at h
  | cons g gs ih =>
    intro e h
    simp only [buildQueries] at h
    cases hc : check g with
    | error e' =>
      rw [hc] at h
      simp at h
      exact ⟨g, List.mem_cons_self g gs, by rw [hc, h]⟩
    | ok u =>
      rw [hc] at h
      cases hb : buildQueries check start endv limS reporter gs with
      | error e' =>
        rw [hb] at h
        simp at h
        obtain ⟨g', hg', hcg'⟩ := ih e' hb
        exact ⟨g', List.mem_cons_of_mem g hg', by rw [hcg', h]⟩
      | ok qs' => rw [hb] at h; simp at h

theorem fetchParallel_err_acc (fetch : Fetcher) :
    ∀ qs m q e, q ∈ qs → fetch q = Except.error e →
      ∃ ce, fetchParallel fetch qs m = Except.error ce := by
  intro qs
  induction qs with
  | nil => intro m q e h; simp at h
  | cons q0 rest ih =>
    intro m q e hmem hfq
    cases hf0 : fetch q0 with
    | error e0 => exact ⟨e0, by simp [fetchParallel, hf0]⟩
    | ok b =>
      rcases List.mem_cons.mp hmem with rfl | hmem'
      · simp [hfq] at hf0
      · obtain ⟨ce, hce⟩ := ih (m.addBatch b) q e hmem' hfq
        exact ⟨ce, by simp [fetchParallel, hf0, hce]⟩

theorem StreamMerger.addRecord_limit (m : StreamMerger) (r : Record) :
    (m.addRecord r).limit = m.limit := by
  unfold StreamMerger.addRecord
  split <;> rfl

theorem StreamMerger.addRecord_cap (L : Int) (hL : 0 < L) (m : StreamMerger)
    (hlim : m.limit = L) (hlen : (m.records.length : Int) ≤ L) (r : Record) :
    ((m.addRecord r).records.length : Int) ≤ L := by
  unfold StreamMerger.addRecord
  split
  · exact hlen
  · rename_i hcond
    rw [hlim] at hcond
    have hlt : (m.records.length : Int) < L := by
      by_contra hge
      exact hcond ⟨hL, le_of_not_lt hge⟩
    simp only [List.length_append, List.length_cons, List.length_nil]
    push_cast
    omega

theorem StreamMerger.addBatch_limit (b : List Record) :
    ∀ m : StreamMerger, (m.addBatch b).limit = m.limit := by
  induction b with
  | nil => intro m; rfl
  | cons r b ih =>
    intro m
    show ((m.addRecord r).addBatch b).limit = m.limit
    rw [ih (m.addRecord r), StreamMerger.addRecord_limit]

theorem StreamMerger.addBatch_cap (L : Int) (hL : 0 < L) (b : List Record) :
    ∀ m : StreamMerger, m.limit = L → (m.records.length : Int) ≤ L →
      ((m.addBatch b).records.length : Int) ≤ L := by
  induction b with
  | nil => intro m _ h2; exact h2
  | cons r b ih =>
    intro m h1 h2
    show (((m.addRecord r).addBatch b).records.length : Int) ≤ L
    exact ih (m.addRecord r) (by rw [StreamMerger.addRecord_limit, h1])
      (StreamMerger.addRecord_cap L hL m h1 h2 r)

theorem wrap64_eq_self (v : Int) (h1 : -(2 ^ 63) ≤ v) (h2 : v ≤ 2 ^ 63 - 1) :
    wrap64 v = v := by
  unfold wrap64
  rw [Int.emod_eq_of_lt (by omega) (by omega)]
  omega

theorem parseInt64_ok_ne_nil (s : Str) (r : Int) (h : parseInt64 s = Except.ok r) :
    s ≠ [] := by
  intro he
  subst he
  simp [parseInt64, digitsVal] at h

/-- C3 counterexample: the candidate `"a="` splits on `=` into the two parts
`"a"` and `""`; the value part is empty, so the claim says it is dropped, but
the source checks only `len(pair) == 2` and keeps the pair `(a, "")`. -/
theorem parseFilters_keeps_empty_value :
    parseFilters (str "a=") = Except.ok [[(str "a", [])]] ∧
    parseFilters (str "a=") ≠ Except.ok [[]] := by decide

/-- C3 amended: a candidate filter entry is kept iff splitting it on `=`
yields exactly two parts — equivalently, it is `k ++ "=" ++ v` with `=`
occurring in neither part — where the parts may be empty; every other
candidate is dropped, and no error is produced for any escape-free input;
in particular parsing `"a=1&bad|c=3"` yields the two groups
`[[a=1], [c=3]]`. -/
theorem parseFilters_keep_rule :
    (∀ f k v, keepPair f = some (k, v) ↔ (f = k ++ '=' :: v ∧ '=' ∉ k ∧ '=' ∉ v)) ∧
    (∀ raw, '%' ∉ raw → ∃ gs, parseFilters raw = Except.ok gs) ∧
    parseFilters (str "a=1&bad|c=3") =
      Except.ok [[(str "a", str "1")], [(str "c", str "3")]] := by
  refine ⟨keepPair_eq_some_iff, ?_, by decide⟩
  intro raw h
  exact ⟨(splitOnChar '|' (plusToSpace raw)).map
      (fun g => (splitOnChar '&' g).filterMap keepPair),
    by simp [parseFilters, queryUnescape_no_pct raw h]⟩

theorem parseFilters_keep_rule_witness :
    keepPair (str "x=9") = some (str "x", str "9") :=
  (parseFilters_keep_rule.1 (str "x=9") (str "x") (str "9")).mpr (by decide)

/-- C4 counterexample: `parseFilters` applied to the empty string does not
return zero groups: Go's `strings.Split("", "|")` yields `[""]`, so the
result is exactly one group containing zero pairs. -/
theorem parseFilters_empty_one_group :
    parseFilters [] = Except.ok [[]] ∧
    ([[]] : List (List KV)).length = 1 ∧
    parseFilters [] ≠ Except.ok ([] : List (List KV)) := by decide

/-- C4 amended: `parseFilters` applied to the empty string succeeds and
returns exactly one group containing zero pairs; `getFlows` consequently
takes the single-query path and issues one query whose filter set is empty,
so the request is still treated as having no filtering. -/
theorem parseFilters_empty_no_filtering (check : Checker) (fetch : Fetcher)
    (now : Int) (p : Params) (start limS : Str) (limI : Int)
    (hfilters : p filtersKey = [])
    (hs : getStartTime now p = Except.ok start)
    (hl : getLimit p = Except.ok (limS, limI))
    (hc : check [] = Except.ok ()) :
    parseFilters (p filtersKey) = Except.ok [[]] ∧
    getFlows check fetch now p =
      wrapFetch (fetchSingle fetch ⟨start, p endTimeKey, limS, p reporterKey, []⟩
        (NewStreamMerger limI)) := by
  have hpf : parseFilters (p filtersKey) = Except.ok [[]] := by rw [hfilters]; rfl
  refine ⟨hpf, ?_⟩
  rw [getFlows_eq_dispatch check fetch now p start limS limI [[]] hs hl hpf]
  exact dispatch_single_ok check fetch start (p endTimeKey) limS limI
    (p reporterKey) [[]] (by decide) (fun _ => hc)

theorem parseFilters_empty_no_filtering_witness :
    getFlows checkOk fetchOk 0 pNone =
      wrapFetch (fetchSingle fetchOk ⟨[], [], [], [], []⟩ (NewStreamMerger 0)) :=
  (parseFilters_empty_no_filtering checkOk fetchOk 0 pNone [] [] 0
    (by decide) (by decide) (by decide) (by decide)).2

/-- C6: `parseFilters` implements the documented grammar: the decoded string
is split on `|` into OR-groups and each group is split on `&` into AND-pair
candidates, preserving order; in particular `"a=1&b=2|c=3"` yields two
groups, `[(a,1), (b,2)]` and `[(c,3)]`, in that order. -/
theorem parseFilters_grammar :
    parseFilters (str "a=1&b=2|c=3") =
      Except.ok [[(str "a", str "1"), (str "b", str "2")], [(str "c", str "3")]] ∧
    ∀ raw, '%' ∉ raw → '+' ∉ raw →
      parseFilters raw = Except.ok ((splitOnChar '|' raw).map
        (fun g => (splitOnChar '&' g).filterMap keepPair)) := by
  refine ⟨by decide, ?_⟩
  intro raw h1 h2
  simp [parseFilters, queryUnescape_no_pct raw h1, plusToSpace_id raw h2]

theorem parseFilters_grammar_witness :
    parseFilters (str "x=9&y=8") =
      Except.ok [[(str "x", str "9"), (str "y", str "8")]] := by
  rw [parseFilters_grammar.2 (str "x=9&y=8") (by decide) (by decide)]
  decide

/-- C9: decoding-then-parsing is idempotent on already-decoded strings: for
every raw filter string without URL escapes (no `%` at all), unescaping
succeeds and `parseFilters` of the raw string equals `parseFilters` of the
string after one more round of unescaping. -/
theorem parseFilters_decode_idempotent (raw : Str) (h : '%' ∉ raw) :
    ∃ d, queryUnescape raw = some d ∧ parseFilters raw = parseFilters d := by
  refine ⟨plusToSpace raw, queryUnescape_no_pct raw h, ?_⟩
  have h2 : '%' ∉ plusToSpace raw := plusToSpace_no_pct raw h
  simp [parseFilters, queryUnescape_no_pct raw h,
    queryUnescape_no_pct (plusToSpace raw) h2, plusToSpace_idem raw]

theorem parseFilters_decode_idempotent_witness :
    ('%' ∉ str "a=1+2") ∧
    ∃ d, queryUnescape (str "a=1+2") = some d ∧
      parseFilters (str "a=1+2") = parseFilters d :=
  ⟨by decide, parseFilters_decode_idempotent (str "a=1+2") (by decide)⟩

/-- C7 counterexample: with `timeRange` the most negative `int64` (a valid
integer), Go computes `time.Now().Unix() - r` in wrapping `int64` arithmetic;
at Unix time 1760227200 the wrapped result is negative while the exact
difference is `9223372038615003008`, so the returned string is not the
decimal string of (current Unix time minus r). -/
theorem getStartTime_wrap_counterexample :
    getStartTime 1760227200 pOverflow = Except.ok (str "-9223372035094548608") ∧
    formatInt (1760227200 - (-9223372036854775808 : Int)) = str "9223372038615003008" ∧
    (str "-9223372035094548608" : Str) ≠ str "9223372038615003008" := by decide

/-- C7 amended: with no `startTime` and a `timeRange` holding a valid integer
`r`, `getStartTime` returns the decimal string of `now - r` computed in
two's-complement 64-bit arithmetic — equal to the exact difference whenever
that difference fits in `int64`; a present `startTime` is returned as given;
with both absent the result is the empty string; no error in any case. -/
theorem getStartTime_spec (now : Int) (p : Params) :
    (p startTimeKey ≠ [] → getStartTime now p = Except.ok (p startTimeKey)) ∧
    (p startTimeKey = [] → p timeRangeKey = [] → getStartTime now p = Except.ok []) ∧
    (∀ r, p startTimeKey = [] → parseInt64 (p timeRangeKey) = Except.ok r →
      getStartTime now p = Except.ok (formatInt (wrap64 (now - r))) ∧
      (-(2 ^ 63) ≤ now - r → now - r ≤ 2 ^ 63 - 1 → wrap64 (now - r) = now - r)) := by
  refine ⟨?_, ?_, ?_⟩
  · intro h
    have hlen : ¬(p startTimeKey).length = 0 := by simpa using h
    simp [getStartTime, hlen]
  · intro h1 h2
    simp [getStartTime, h1, h2]
  · intro r h1 h2
    have hne : p timeRangeKey ≠ [] := parseInt64_ok_ne_nil _ r h2
    have hlen : 0 < (p timeRangeKey).length := List.length_pos.mpr hne
    refine ⟨?_, fun ha hb => wrap64_eq_self (now - r) ha hb⟩
    simp [getStartTime, h1, hlen, h2]

theorem getStartTime_spec_witness :
    getStartTime 100 pStartOnly = Except.ok (str "42") ∧
    getStartTime 100 pNone = Except.ok [] ∧
    getStartTime 100 pRange = Except.ok (formatInt (wrap64 (100 - 60))) :=
  ⟨(getStartTime_spec 100 pStartOnly).1 (by decide),
   (getStartTime_spec 100 pNone).2.1 (by decide) (by decide),
   ((getStartTime_spec 100 pRange).2.2 60 (by decide) (by decide)).1⟩

/-- C8 counterexample: `timeRange` is present and not a valid integer, yet
`getStartTime` does not fail — a present `startTime` short-circuits the
time-range branch entirely, so the invalid value is silently ignored. -/
theorem getStartTime_masked_invalid_range :
    pMask timeRangeKey = str "x" ∧
    parseInt64 (str "x") = Except.error (parseIntErrSyntax (str "x")) ∧
    getStartTime 0 pMask = Except.ok (str "5") := by decide

/-- C8 amended: when `startTime` is absent and `timeRange` is present but not
a valid integer, `getStartTime` fails with a parse error; when `limit` is
present but not a valid integer, `getLimit` fails with a parse error; an
absent limit yields the empty string and the integer zero without error; and
`getFlows` maps either failure to HTTP status 400 with a nil response. -/
theorem parse_error_handling :
    (∀ (now : Int) (p : Params), p startTimeKey = [] → 0 < (p timeRangeKey).length →
        (∃ e, parseInt64 (p timeRangeKey) = Except.error e) →
        ∃ e2, getStartTime now p = Except.error e2) ∧
    (∀ p : Params, 0 < (p limitKey).length →
        (∃ e, parseInt64 (p limitKey) = Except.error e) →
        ∃ e2, getLimit p = Except.error e2) ∧
    (∀ p : Params, p limitKey = [] → getLimit p = Except.ok ([], 0)) ∧
    (∀ (check : Checker) (fetch : Fetcher) (now : Int) (p : Params) (e : Str),
        getStartTime now p = Except.error e →
        getFlows check fetch now p = (none, 400, some e)) ∧
    (∀ (check : Checker) (fetch : Fetcher) (now : Int) (p : Params) (s e : Str),
        getStartTime now p = Except.ok s → getLimit p = Except.error e →
        getFlows check fetch now p = (none, 400, some e)) := by
  refine ⟨?_, ?_, ?_, ?_, ?_⟩
  · rintro now p h1 h2 ⟨e, he⟩
    exact ⟨str "Could not parse time range: " ++ e, by simp [getStartTime, h1, h2, he]⟩
  · rintro p h1 ⟨e, he⟩
    exact ⟨str "Could not parse limit: " ++ e, by simp [getLimit, h1, he]⟩
  · intro p h
    simp [getLimit, h]
  · intro check fetch now p e h
    simp [getFlows, h]
  · intro check fetch now p s e h1 h2
    simp [getFlows, h1, h2]

theorem parse_error_handling_witness :
    (∃ e2, getStartTime 0 pBadRange = Except.error e2) ∧
    (∃ e2, getLimit pBadLimit = Except.error e2) ∧
    getLimit pNone = Except.ok ([], 0) ∧
    getFlows checkOk fetchOk 0 pBadRange =
      (none, 400, some (str "Could not parse time range: " ++ parseIntErrSyntax (str "abc"))) ∧
    getFlows checkOk fetchOk 0 pBadLimit =
      (none, 400, some (str "Could not parse limit: " ++ parseIntErrSyntax (str "zz"))) :=
  ⟨parse_error_handling.1 0 pBadRange (by decide) (by decide)
     ⟨parseIntErrSyntax (str "abc"), by decide⟩,
   parse_error_handling.2.1 pBadLimit (by decide)
     ⟨parseIntErrSyntax (str "zz"), by decide⟩,
   parse_error_handling.2.2.1 pNone (by decide),
   parse_error_handling.2.2.2.1 checkOk fetchOk 0 pBadRange _ (by decide),
   parse_error_handling.2.2.2.2 checkOk fetchOk 0 pBadLimit [] _ (by decide) (by decide)⟩

/-- C1: for every parsed filter result, `getFlows` follows the fan-out
decision rule: with more than one filter group present it builds one query
per group and dispatches them all via `fetchParallel`; with at most one group
it issues exactly one query via `fetchSingle`, applying the lone group's
filters when a group exists and no filters otherwise. -/
theorem getFlows_fanout_decision (check : Checker) (fetch : Fetcher) (now : Int)
    (p : Params) (start limS : Str) (limI : Int) (fg : List (List KV))
    (hs : getStartTime now p = Except.ok start)
    (hl : getLimit p = Except.ok (limS, limI))
    (hf : parseFilters (p filtersKey) = Except.ok fg) :
    (1 < fg.length → ∀ qs,
        buildQueries check start (p endTimeKey) limS (p reporterKey) fg = Except.ok qs →
        qs.length = fg.length ∧ qs.map FlowQuery.qFilters = fg ∧
        getFlows check fetch now p =
          wrapFetch (fetchParallel fetch qs (NewStreamMerger limI))) ∧
    (fg.length ≤ 1 → (0 < fg.length → check (fg.headD []) = Except.ok ()) →
        getFlows check fetch now p =
          wrapFetch (fetchSingle fetch
            ⟨start, p endTimeKey, limS, p reporterKey, fg.headD []⟩
            (NewStreamMerger limI))) := by
  constructor
  · intro h qs hq
    obtain ⟨h1, h2⟩ :=
      buildQueries_ok_shape check start (p endTimeKey) limS (p reporterKey) fg qs hq
    refine ⟨h1, h2, ?_⟩
    rw [getFlows_eq_dispatch check fetch now p start limS limI fg hs hl hf]
    exact dispatch_multi_ok check fetch start (p endTimeKey) limS limI
      (p reporterKey) fg qs h hq
  · intro h hc
    rw [getFlows_eq_dispatch check fetch now p start limS limI fg hs hl hf]
    exact dispatch_single_ok check fetch start (p endTimeKey) limS limI
      (p reporterKey) fg (not_lt.mpr h) hc

theorem getFlows_fanout_decision_witness :
    getFlows checkOk fetchOk 0 pMulti =
      wrapFetch (fetchParallel fetchOk
        [⟨[], [], [], [], [(str "a", str "1")]⟩, ⟨[], [], [], [], [(str "b", str "2")]⟩]
        (NewStreamMerger 0)) ∧
    getFlows checkOk fetchOk 0 pSingle =
      wrapFetch (fetchSingle fetchOk ⟨[], [], [], [], [(str "a", str "1")]⟩
        (NewStreamMerger 0)) :=
  ⟨((getFlows_fanout_decision checkOk fetchOk 0 pMulti [] [] 0
      [[(str "a", str "1")], [(str "b", str "2")]] (by decide) (by decide) (by decide)).1
      (by decide)
      [⟨[], [], [], [], [(str "a", str "1")]⟩, ⟨[], [], [], [], [(str "b", str "2")]⟩]
      (by decide)).2.2,
   (getFlows_fanout_decision checkOk fetchOk 0 pSingle [] [] 0
      [[(str "a", str "1")]] (by decide) (by decide) (by decide)).2
      (by decide) (fun _ => by decide)⟩

/-- C2: whenever a fetch — the single fetch, or any one of the parallel
fetches — fails, `getFlows` returns no result at all (a nil response, never a
partial one), the status code propagated from the failing fetch, and the
message `"Error while fetching flows from Loki: "` followed by the fetch
error's detail; moreover a failure of any one query in the fan-out makes the
whole `fetchParallel` fail. -/
theorem getFlows_fetch_error_propagation (check : Checker) (fetch : Fetcher)
    (now : Int) (p : Params) (start limS : Str) (limI : Int) (fg : List (List KV))
    (hs : getStartTime now p = Except.ok start)
    (hl : getLimit p = Except.ok (limS, limI))
    (hf : parseFilters (p filtersKey) = Except.ok fg) :
    (∀ qs code msg, 1 < fg.length →
        buildQueries check start (p endTimeKey) limS (p reporterKey) fg = Except.ok qs →
        fetchParallel fetch qs (NewStreamMerger limI) = Except.error (code, msg) →
        getFlows check fetch now p =
          (none, code, some (str "Error while fetching flows from Loki: " ++ msg))) ∧
    (∀ code msg, fg.length ≤ 1 →
        (0 < fg.length → check (fg.headD []) = Except.ok ()) →
        fetchSingle fetch ⟨start, p endTimeKey, limS, p reporterKey, fg.headD []⟩
          (NewStreamMerger limI) = Except.error (code, msg) →
        getFlows check fetch now p =
          (none, code, some (str "Error while fetching flows from Loki: " ++ msg))) ∧
    (∀ qs m q e, q ∈ qs → fetch q = Except.error e →
        ∃ ce, fetchParallel fetch qs m = Except.error ce) := by
  refine ⟨?_, ?_, fetchParallel_err_acc fetch⟩
  · intro qs code msg h hq hfp
    rw [getFlows_eq_dispatch check fetch now p start limS limI fg hs hl hf,
      dispatch_multi_ok check fetch start (p endTimeKey) limS limI
        (p reporterKey) fg qs h hq, hfp]
    rfl
  · intro code msg h hc hfs
    rw [getFlows_eq_dispatch check fetch now p start limS limI fg hs hl hf,
      dispatch_single_ok check fetch start (p endTimeKey) limS limI
        (p reporterKey) fg (not_lt.mpr h) hc, hfs]
    rfl

theorem getFlows_fetch_error_propagation_witness :
    getFlows checkOk fetchFail 0 pMulti =
      (none, 502, some (str "Error while fetching flows from Loki: boom")) ∧
    getFlows checkOk fetchFail 0 pSingle =
      (none, 502, some (str "Error while fetching flows from Loki: boom")) :=
  ⟨(getFlows_fetch_error_propagation checkOk fetchFail 0 pMulti [] [] 0
      [[(str "a", str "1")], [(str "b", str "2")]] (by decide) (by decide) (by decide)).1
      [⟨[], [], [], [], [(str "a", str "1")]⟩, ⟨[], [], [], [], [(str "b", str "2")]⟩]
      502 (str "boom") (by decide) (by decide) (by decide),
   (getFlows_fetch_error_propagation checkOk fetchFail 0 pSingle [] [] 0
      [[(str "a", str "1")]] (by decide) (by decide) (by decide)).2.1
      502 (str "boom") (by decide) (fun _ => by decide) (by decide)⟩

/-- C10: the two query-build error paths of `getFlows` report differently:
with more than one filter group, a filter group rejected by the query builder
yields status 400 with the builder's message prefixed by
`"Can't build query: "`; with a single group the same rejection yields status
400 with the builder's error returned unchanged; in both paths the returned
response is nil. -/
theorem getFlows_build_error_paths (check : Checker) (fetch : Fetcher)
    (now : Int) (p : Params) (start limS : Str) (limI : Int) (fg : List (List KV))
    (hs : getStartTime now p = Except.ok start)
    (hl : getLimit p = Except.ok (limS, limI))
    (hf : parseFilters (p filtersKey) = Except.ok fg) :
    (1 < fg.length → ∀ e,
        buildQueries check start (p endTimeKey) limS (p reporterKey) fg = Except.error e →
        (∃ g, g ∈ fg ∧ check g = Except.error e) ∧
        getFlows check fetch now p =
          (none, 400, some (str "Can't build query: " ++ e))) ∧
    (fg.length ≤ 1 → 0 < fg.length → ∀ e, check (fg.headD []) = Except.error e →
        getFlows check fetch now p = (none, 400, some e)) := by
  constructor
  · intro h e he
    refine ⟨buildQueries_err_mem check start (p endTimeKey) limS (p reporterKey) fg e he, ?_⟩
    rw [getFlows_eq_dispatch check fetch now p start limS limI fg hs hl hf]
    exact dispatch_multi_err check fetch start (p endTimeKey) limS limI
      (p reporterKey) fg e h he
  · intro h h0 e he
    rw [getFlows_eq_dispatch check fetch now p start limS limI fg hs hl hf]
    exact dispatch_single_err check fetch start (p endTimeKey) limS limI
      (p reporterKey) fg e h0 (not_lt.mpr h) he

theorem getFlows_build_error_paths_witness :
    getFlows checkBad fetchOk 0 pMulti =
      (none, 400, some (str "Can't build query: bad key")) ∧
    getFlows checkBad fetchOk 0 pSingle = (none, 400, some (str "bad key")) :=
  ⟨((getFlows_build_error_paths checkBad fetchOk 0 pMulti [] [] 0
      [[(str "a", str "1")], [(str "b", str "2")]] (by decide) (by decide) (by decide)).1
      (by decide) (str "bad key") (by decide)).2,
   (getFlows_build_error_paths checkBad fetchOk 0 pSingle [] [] 0
      [[(str "a", str "1")]] (by decide) (by decide) (by decide)).2
      (by decide) (by decide) (str "bad key") (by decide)⟩

/-- C5: for every positive configured limit `L`, the stream merger never
accumulates more than `L` records in the aggregated response, regardless of
how many batches are fed to it and in what order: once the cap is reached,
excess records from subsequent batches are not added. -/
theorem streamMerger_cap (L : Int) (hL : 0 < L) (batches : List (List Record)) :
    (((batches.foldl StreamMerger.addBatch (NewStreamMerger L)).get.length : Int)) ≤ L := by
  have hgen : ∀ (bs : List (List Record)) (m : StreamMerger), m.limit = L →
      ((m.records.length : Int)) ≤ L →
      (((bs.foldl StreamMerger.addBatch m).records.length : Int)) ≤ L := by
    intro bs
    induction bs with
    | nil => intro m _ h2; simpa using h2
    | cons b bs ih =>
      intro m h1 h2
      exact ih (m.addBatch b) (by rw [StreamMerger.addBatch_limit b m, h1])
        (StreamMerger.addBatch_cap L hL b m h1 h2)
  exact hgen batches (NewStreamMerger L) rfl (by simp [NewStreamMerger]; omega)

theorem streamMerger_cap_witness :
    (0 : Int) < 10 ∧
    (((([[0, 1, 2, 3, 4], [5, 6, 7, 8, 9], [10, 11, 12, 13, 14]] : List (List Record)).foldl
      StreamMerger.addBatch (NewStreamMerger 10)).get.length : Int)) ≤ 10 :=
  ⟨by decide, streamMerger_cap 10 (by decide)
    [[0, 1, 2, 3, 4], [5, 6, 7, 8, 9], [10, 11, 12, 13, 14]]⟩

